import Mathlib

/-!
Shallow embedding of `openhgnn/models/HAN.py` (OpenHGNN).

The module defines the HAN heterogeneous graph neural network:
a `HAN` model owning a stack of `HANLayer`s plus a final linear head, where each
`HANLayer` owns one `GATConv` branch per metapath, a per-graph cache of
metapath-projected subgraphs, and a `SemanticAttention` combiner.

Modelling conventions:
* Tensors are modelled by their shape together with a symbolic value (`TExpr`)
  recording which sub-module produced them and from which inputs; the numeric
  contents live in the external autograd runtime and are opaque to this module.
* Graph object identity (Python `is`) is modelled by a numeric `id` field.
* Exceptions raised by the tensor/graph library (`torch.stack` on an empty list,
  shape mismatches, DGL's zero-in-degree error, `KeyError`) are modelled with
  `Except String`.
* `dropout` probabilities and the `F.elu` activation are internal to `GATConv`
  (floating point, no claim depends on their values) and are absorbed into the
  symbolic `gatConvE` node.
-/

/-- A canonical edge type: (source node type, relation name, destination node type). -/
abbrev Etype := String × String × String

/-- A metapath: an ordered list of canonical edge types. -/
abbrev Metapath := List Etype

/-- The homogeneous graph returned by `dgl.metapath_reachable_graph`: it keeps every
node of the metapath's source node type (also the unreachable ones, which then have
zero in-degree) and has one edge per pair of nodes connected by the metapath. -/
structure ProjGraph where
  src_graph : Nat
  path : Metapath
  num_nodes : Nat
  edges : List (Nat × Nat)
  deriving DecidableEq, Repr

/-- Symbolic tensor values: each node records the sub-module that produced the tensor. -/
inductive TExpr : Type where
  | feat : String → TExpr
  | inputT : Nat → TExpr
  | gatConvE : Nat → ProjGraph → TExpr → TExpr
  | flattenE : TExpr → TExpr
  | stackE : List TExpr → TExpr
  | semAttE : TExpr → TExpr
  | linearE : TExpr → TExpr

/-- A tensor: a shape plus a symbolic value. -/
structure Tensor where
  shape : List Nat
  val : TExpr

/-- A DGL heterogeneous graph, as used by `HAN.py`: an object identity, the canonical
edge types, per-node-type node counts, per-edge-type edge lists, and per-node-type
feature storage (`g.nodes[ntype].data` with field name fixed to the string used by
the code). -/
structure HeteroGraph where
  id : Nat
  canonical_etypes : List Etype
  ntype_num_nodes : List (String × Nat)
  etype_edges : List (Etype × List (Nat × Nat))
  node_feat : List (String × Tensor)

/-- Number of nodes of a node type (0 for an unknown type). -/
def HeteroGraph.num_nodes_of (g : HeteroGraph) (nt : String) : Nat :=
  (g.ntype_num_nodes.lookup nt).getD 0

/-- Edge list of one canonical edge type. -/
def HeteroGraph.edges_of (g : HeteroGraph) (e : Etype) : List (Nat × Nat) :=
  (g.etype_edges.lookup e).getD []

/-- Relational composition of two adjacency (edge-pair) lists, coalesced. -/
def compose_adj (ab bc : List (Nat × Nat)) : List (Nat × Nat) :=
  (ab.flatMap (fun p => bc.filterMap
    (fun q => if p.2 = q.1 then some (p.1, q.2) else none))).dedup

/-- Adjacency of a metapath: the product of the per-edge-type adjacencies. -/
def HeteroGraph.metapath_adj (g : HeteroGraph) (mp : Metapath) : List (Nat × Nat) :=
  match mp with
  | [] => []
  | e :: rest => rest.foldl (fun acc e2 => compose_adj acc (g.edges_of e2)) (g.edges_of e)

/-- `dgl.metapath_reachable_graph g mp`: all nodes of the metapath's source node type,
with an edge per metapath-reachable pair.  (The code only ever calls it with
two-element metapaths, so the empty-metapath case is unreachable.) -/
def metapath_reachable_graph (g : HeteroGraph) (mp : Metapath) : ProjGraph :=
  { src_graph := g.id
    path := mp
    num_nodes := match mp with
      | [] => 0
      | e :: _ => g.num_nodes_of e.1
    edges := (g.metapath_adj mp).dedup }

/-- Whether some node of the projected graph has no incoming edge. -/
def ProjGraph.has_zero_in_deg (g : ProjGraph) : Bool :=
  (List.range g.num_nodes).any (fun v => !(g.edges.any (fun e => e.2 == v)))

/-- Configuration of one `dgl.nn.pytorch.GATConv` branch (dropout rates and the
`F.elu` activation are internal and not observable by any property here). -/
structure GATConv where
  in_feats : Nat
  out_feats : Nat
  num_heads : Nat
  allow_zero_in_degree : Bool
  deriving DecidableEq, Repr

/-- `GATConv.forward` on a homogeneous graph: DGL first raises `DGLError` if the graph
has a zero-in-degree node and the layer was not constructed with
`allow_zero_in_degree=True`; then the input features must be a 2-D tensor with one
row per node and `in_feats` columns; the output has shape
(num_nodes, num_heads, out_feats).  `idx` identifies which branch (parameter set)
computed the result. -/
def GATConv.forward (c : GATConv) (idx : Nat) (g : ProjGraph) (h : Tensor) :
    Except String Tensor :=
  if !c.allow_zero_in_degree && g.has_zero_in_deg then
    .error "DGLError: there are 0-in-degree nodes in the graph"
  else
    match h.shape with
    | [n, f] =>
      if n = g.num_nodes ∧ f = c.in_feats then
        .ok { shape := [g.num_nodes, c.num_heads, c.out_feats]
              val := .gatConvE idx g h.val }
      else .error "GATConv: feature shape mismatch"
    | _ => .error "GATConv: expected 2-D input features"

/-- `Tensor.flatten(1)`: flatten all dimensions after the first into one.
(Only ever applied to the 3-D `GATConv` output.) -/
def Tensor.flatten1 (t : Tensor) : Tensor :=
  match t.shape with
  | n :: rest => { shape := [n, rest.prod], val := .flattenE t.val }
  | [] => { shape := [], val := .flattenE t.val }

/-- `torch.stack(ts, dim=1)`: fails on an empty list, requires all shapes equal,
and inserts a new axis of size `ts.length` at position 1. -/
def torch_stack_dim1 (ts : List Tensor) : Except String Tensor :=
  match ts with
  | [] => .error "stack expects a non-empty TensorList"
  | t :: rest =>
    if rest.all (fun u => u.shape == t.shape) then
      match t.shape with
      | n :: srest =>
        .ok { shape := n :: (rest.length + 1) :: srest
              val := .stackE ((t :: rest).map Tensor.val) }
      | [] => .error "stack: dimension out of range"
    else .error "stack expects each tensor to be equal size"

/-- `nn.Linear(in_features, out_features)` applied to a 2-D tensor: the feature
width must match `in_features`. -/
def nn_linear_forward (in_features out_features : Nat) (t : Tensor) :
    Except String Tensor :=
  match t.shape with
  | [n, f] =>
    if f = in_features then .ok { shape := [n, out_features], val := .linearE t.val }
    else .error "Linear: mat1 and mat2 shapes cannot be multiplied"
  | _ => .error "Linear: expected 2-D input"

/-- Modelled from the spec: the `SemanticAttention` combiner lives in
`openhgnn/models/macro_layer/SemanticConv.py`, which is not among the provided
sources; spec section 4.4 gives only its interface: it accepts a tensor of shape
(N, M, F) — N nodes, M metapaths, F features — and returns a tensor of shape
(N, F), a learned softmax-normalised weighting over the M metapath embeddings.
`in_size` is the feature width F it was constructed for (its internal projection
fails on any other width). -/
def SemanticAttention.forward (in_size : Nat) (t : Tensor) : Except String Tensor :=
  match t.shape with
  | [n, _m, f] =>
    if f = in_size then .ok { shape := [n, f], val := .semAttE t.val }
    else .error "SemanticAttention: feature width mismatch"
  | _ => .error "SemanticAttention: expected 3-D input"

/-- State of one `HANLayer`: the `GATConv` branches, the `SemanticAttention`
feature width, the metapath list, and the mutable subgraph cache
(`_cached_graph` holds the identity of the graph the cache was computed for,
`_cached_coalesced_graph` maps each metapath to its projected subgraph). -/
structure HANLayer where
  gat_layers : List GATConv
  semantic_attention_in_size : Nat
  meta_paths : List Metapath
  cached_graph : Option Nat
  cached_coalesced_graph : List (Metapath × ProjGraph)

/-- `HANLayer.__init__`: one `GATConv(in_size, out_size, layer_num_heads,
allow_zero_in_degree=True)` per metapath, a `SemanticAttention` with
`in_size = out_size * layer_num_heads`, the metapath list (the Python
`list(tuple(mp) for mp in meta_paths)` conversion is the identity here), and an
empty cache. -/
def HANLayer.init (meta_paths : List Metapath) (in_size out_size layer_num_heads : Nat) :
    HANLayer :=
  { gat_layers := (List.range meta_paths.length).map (fun _ =>
      { in_feats := in_size, out_feats := out_size, num_heads := layer_num_heads
        allow_zero_in_degree := true })
    semantic_attention_in_size := out_size * layer_num_heads
    meta_paths := meta_paths
    cached_graph := none
    cached_coalesced_graph := [] }

/-- The cache step at the top of `HANLayer.forward`: if `_cached_graph is None or
_cached_graph is not g`, clear the cache and project every metapath of `g`;
otherwise reuse it.  The second component logs the metapaths passed to
`dgl.metapath_reachable_graph` (one entry per projection call). -/
def HANLayer.update_cache (l : HANLayer) (g : HeteroGraph) : HANLayer × List Metapath :=
  if l.cached_graph = some g.id then (l, [])
  else
    ({ l with
        cached_graph := some g.id
        cached_coalesced_graph :=
          l.meta_paths.map (fun mp => (mp, metapath_reachable_graph g mp)) },
      l.meta_paths)

/-- The per-metapath loop of `HANLayer.forward`: for each `(i, meta_path)` in
`enumerate(self.meta_paths)`, look the projected subgraph up in the cache
(`KeyError` if absent), run `self.gat_layers[i]` (`IndexError` if absent) on it
with the current features, and flatten the per-head axis.  The loop is sequential
and the first exception aborts it. -/
def HANLayer.collect_embeddings (l : HANLayer) (h : Tensor) :
    List (Nat × Metapath) → Except String (List Tensor)
  | [] => .ok []
  | p :: ps =>
    match l.cached_coalesced_graph.lookup p.2 with
    | none => .error "KeyError: meta_path"
    | some new_g =>
      match l.gat_layers.get? p.1 with
      | none => .error "IndexError: gat_layers"
      | some conv =>
        match conv.forward p.1 new_g h with
        | .error e => .error e
        | .ok t =>
          match l.collect_embeddings h ps with
          | .error e => .error e
          | .ok ts => .ok (t.flatten1 :: ts)

/-- The list of per-metapath semantic embeddings of `HANLayer.forward`. -/
def HANLayer.semantic_embeddings (l : HANLayer) (h : Tensor) :
    Except String (List Tensor) :=
  l.collect_embeddings h l.meta_paths.enum

/-- `HANLayer.forward(g, h)`: update the cache, compute the per-metapath
embeddings, stack them along `dim=1` and combine with `SemanticAttention`.
Returns (result, layer object after the call, projection-call log). -/
def HANLayer.forward (l : HANLayer) (g : HeteroGraph) (h : Tensor) :
    Except String Tensor × HANLayer × List Metapath :=
  let lc := l.update_cache g
  let result : Except String Tensor :=
    match lc.1.semantic_embeddings h with
    | .error e => .error e
    | .ok es =>
      match torch_stack_dim1 es with
      | .error e => .error e
      | .ok stacked => SemanticAttention.forward lc.1.semantic_attention_in_size stacked
  (result, lc.1, lc.2)

/-- State of a `HAN` model: target category, the layer stack, and the final
`nn.Linear(hidden_size * num_heads[-1], out_size)` head. -/
structure HAN where
  category : String
  layers : List HANLayer
  linear_in : Nat
  linear_out : Nat

/-- `HAN.__init__`: layer 0 takes `in_size`, layer `l > 0` takes
`hidden_size * num_heads[l-1]`, every layer outputs `hidden_size` per head with
`num_heads[l]` heads; the head maps `hidden_size * num_heads[-1]` to `out_size`.
An empty `num_heads` raises `IndexError` at `num_heads[0]`, modelled as `none`. -/
def HAN.init (meta_paths : List Metapath) (category : String)
    (in_size hidden_size out_size : Nat) (num_heads : List Nat) : Option HAN :=
  match num_heads with
  | [] => none
  | h0 :: rest =>
    some
      { category := category
        layers := HANLayer.init meta_paths in_size hidden_size h0 ::
          (List.range rest.length).map (fun i =>
            HANLayer.init meta_paths (hidden_size * (h0 :: rest).getD i 0)
              hidden_size (rest.getD i 0))
        linear_in := hidden_size * rest.getLastD h0
        linear_out := out_size }

/-- The metapath enumeration inside `HAN.build_model_from_args`: for every edge type
whose source is the category, pair it with every edge type closing the loop
(`etype[0] == dst_e[2] and etype[2] == dst_e[0]`), excluding self-loops in category
space (`etype[0] != etype[2]`), in nested-loop order. -/
def HAN.build_metapaths (etypes : List Etype) (category : String) : List Metapath :=
  etypes.flatMap (fun etype =>
    if etype.1 = category then
      etypes.filterMap (fun dst_e =>
        if etype.1 = dst_e.2.2 ∧ etype.2.2 = dst_e.1 ∧ etype.1 ≠ etype.2.2 then
          some [etype, dst_e]
        else none)
    else [])

/-- The argument object consumed by `HAN.build_model_from_args` (`args.dropout` is a
float forwarded verbatim to `GATConv` and is not modelled). -/
structure Args where
  category : String
  in_dim : Nat
  hidden_dim : Nat
  out_dim : Nat
  num_heads : List Nat

/-- `HAN.build_model_from_args(args, hg)`: enumerate the metapaths from
`hg.canonical_etypes` and construct the model. -/
def HAN.build_model_from_args (args : Args) (hg : HeteroGraph) : Option HAN :=
  HAN.init (HAN.build_metapaths hg.canonical_etypes args.category) args.category
    args.in_dim args.hidden_dim args.out_dim args.num_heads

/-- The `for gnn in self.layers: h = gnn(g, h)` loop: sequential, each layer's cache
update happens before its result is inspected, the first exception aborts the loop.
Returns (result, layer objects after the call, concatenated projection logs). -/
def HAN.run_layers : List HANLayer → HeteroGraph → Tensor →
    Except String Tensor × List HANLayer × List Metapath
  | [], _, h => (.ok h, [], [])
  | l :: ls, g, h =>
    let r := l.forward g h
    match r.1 with
    | .error e => (.error e, r.2.1 :: ls, r.2.2)
    | .ok h2 =>
      let r2 := HAN.run_layers ls g h2
      (r2.1, r.2.1 :: r2.2.1, r.2.2 ++ r2.2.2)

/-- `HAN.forward(g, h=None)`: the argument `h` is discarded; the features are read
from `g.nodes[category].data` (`KeyError` if absent), passed through every layer in
order, then through the linear head; the result maps the category to the projected
tensor. -/
def HAN.forward (m : HAN) (g : HeteroGraph) (h : Option Tensor) :
    Except String (List (String × Tensor)) × HAN × List Metapath :=
  match g.node_feat.lookup m.category with
  | none => (.error "KeyError: h", m, [])
  | some h0 =>
    let r := HAN.run_layers m.layers g h0
    let out : Except String (List (String × Tensor)) :=
      match r.1 with
      | .error e => .error e
      | .ok hn =>
        match nn_linear_forward m.linear_in m.linear_out hn with
        | .error e => .error e
        | .ok y => .ok [(m.category, y)]
    (out, { m with layers := r.2.1 }, r.2.2)

/-- The `GATConv` configuration `HANLayer.__init__` builds for every branch. -/
def gat_cfg (in_size out_size num_heads : Nat) : GATConv :=
  { in_feats := in_size, out_feats := out_size, num_heads := num_heads
    allow_zero_in_degree := true }

/-- The per-metapath embedding branch `i` produces in a layer with per-head width `D`
and `H` heads, on input features of value `hval` over `N` target nodes: the flattened
output of `GATConv` branch `p.1` run on the projection of metapath `p.2`. -/
def expectedEmb (g : HeteroGraph) (hval : TExpr) (N D H : Nat) (p : Nat × Metapath) :
    Tensor :=
  { shape := [N, D * H]
    val := .flattenE (.gatConvE p.1 (metapath_reachable_graph g p.2) hval) }

/-! Concrete fixtures used by the witnesses: the two-category schema of spec
section 8.6 (categories A and B with edge types A to B and B to A), a variant with a
third category C, and a projected graph with a zero-in-degree node. -/

def eAB : Etype := ("A", "r1", "B")

def eBA : Etype := ("B", "r2", "A")

def eAC : Etype := ("A", "r3", "C")

def eCA : Etype := ("C", "r4", "A")

def tA : Tensor := { shape := [2, 4], val := .feat "A" }

def hgAB : HeteroGraph :=
  { id := 7
    canonical_etypes := [eAB, eBA]
    ntype_num_nodes := [("A", 2), ("B", 3)]
    etype_edges := [(eAB, [(0, 0), (1, 2)]), (eBA, [(0, 1), (2, 1)])]
    node_feat := [("A", tA)] }

def hgAB2 : HeteroGraph := { hgAB with id := 8 }

def hgABC : HeteroGraph :=
  { id := 9
    canonical_etypes := [eAB, eBA, eAC, eCA]
    ntype_num_nodes := [("A", 2), ("B", 3), ("C", 1)]
    etype_edges := [(eAB, [(0, 0), (1, 2)]), (eBA, [(0, 1), (2, 1)]),
      (eAC, [(0, 0)]), (eCA, [(0, 0)])]
    node_feat := [("A", tA)] }

def argsAB : Args :=
  { category := "A", in_dim := 4, hidden_dim := 8, out_dim := 3, num_heads := [2] }

def pgZ : ProjGraph :=
  { src_graph := 7, path := [eAB, eBA], num_nodes := 2, edges := [(0, 0)] }

def tZ : Tensor := { shape := [2, 4], val := .inputT 0 }

/-! ### Helper lemmas -/

theorem lookup_map_pair {α β : Type} [BEq α] [LawfulBEq α] (f : α → β) (xs : List α)
    (x : α) (hx : x ∈ xs) : (xs.map (fun a => (a, f a))).lookup x = some (f x) := by
  induction xs with
  | nil => cases hx
  | cons a as ih =>
    by_cases hxa : (x == a) = true
    · have hx' : x = a := eq_of_beq hxa
      subst hx'
      simp [List.lookup]
    · rcases List.mem_cons.mp hx with h | h
      · exact absurd (beq_iff_eq.mpr h) hxa
      · simpa [List.lookup, hxa] using ih h

theorem collect_embeddings_eq (l : HANLayer) (h : Tensor) (f : Nat × Metapath → Tensor) :
    ∀ ps : List (Nat × Metapath),
      (∀ p ∈ ps, ∃ pg conv t, l.cached_coalesced_graph.lookup p.2 = some pg ∧
          l.gat_layers.get? p.1 = some conv ∧ conv.forward p.1 pg h = .ok t ∧
          t.flatten1 = f p) →
      l.collect_embeddings h ps = .ok (ps.map f) := by
  intro ps
  induction ps with
  | nil => intro _; rfl
  | cons p ps ih =>
    intro hps
    obtain ⟨pg, conv, t, h1, h2, h3, h4⟩ := hps p (List.mem_cons_self p ps)
    have hrest := ih (fun q hq => hps q (List.mem_cons_of_mem p hq))
    simp only [HANLayer.collect_embeddings, h1, h2, h3, hrest, h4, List.map_cons]

theorem semantic_embeddings_fresh
    (l : HANLayer) (g : HeteroGraph) (h : Tensor) (N in_size D H : Nat)
    (hgat : l.gat_layers = List.replicate l.meta_paths.length (gat_cfg in_size D H))
    (hc : l.cached_coalesced_graph =
      l.meta_paths.map (fun mp => (mp, metapath_reachable_graph g mp)))
    (hsh : h.shape = [N, in_size])
    (hn : ∀ mp ∈ l.meta_paths, (metapath_reachable_graph g mp).num_nodes = N) :
    l.semantic_embeddings h =
      .ok (l.meta_paths.enum.map (expectedEmb g h.val N D H)) := by
  apply collect_embeddings_eq
  intro p hp
  have hget : l.meta_paths[p.1]? = some p.2 := List.mem_enum_iff_getElem?.mp hp
  have hlt : p.1 < l.meta_paths.length := by
    by_contra hge
    rw [List.getElem?_eq_none (Nat.le_of_not_lt hge)] at hget
    cases hget
  have hmem : p.2 ∈ l.meta_paths := by
    have := List.getElem?_eq_some.mp hget
    obtain ⟨hh, he⟩ := this
    exact he ▸ List.getElem_mem hh
  refine ⟨metapath_reachable_graph g p.2, gat_cfg in_size D H,
    { shape := [N, H, D]
      val := .gatConvE p.1 (metapath_reachable_graph g p.2) h.val }, ?_, ?_, ?_, ?_⟩
  · rw [hc]
    exact lookup_map_pair _ _ _ hmem
  · rw [hgat]
    simp [List.get?_eq_getElem?, List.getElem?_replicate, hlt]
  · simp [GATConv.forward, gat_cfg, hsh, hn p.2 hmem]
  · simp [Tensor.flatten1, expectedEmb, Nat.mul_comm]

theorem stack_map_expected (g : HeteroGraph) (hval : TExpr) (N D H : Nat)
    (ps : List (Nat × Metapath)) (hne : ps ≠ []) :
    torch_stack_dim1 (ps.map (expectedEmb g hval N D H)) =
      .ok { shape := [N, ps.length, D * H]
            val := .stackE ((ps.map (expectedEmb g hval N D H)).map Tensor.val) } := by
  cases ps with
  | nil => cases hne rfl
  | cons p ps =>
    have hall : ((ps.map (expectedEmb g hval N D H)).all
        (fun u => u.shape == [N, D * H])) = true := by
      rw [List.all_eq_true]
      intro u hu
      obtain ⟨q, _, rfl⟩ := List.mem_map.mp hu
      simp [expectedEmb]
    simp [torch_stack_dim1, expectedEmb, hall]

theorem update_cache_fields (l : HANLayer) (g : HeteroGraph)
    (hcache : l.cached_graph = some g.id →
      l.cached_coalesced_graph =
        l.meta_paths.map (fun mp => (mp, metapath_reachable_graph g mp))) :
    (l.update_cache g).1.meta_paths = l.meta_paths ∧
    (l.update_cache g).1.gat_layers = l.gat_layers ∧
    (l.update_cache g).1.semantic_attention_in_size = l.semantic_attention_in_size ∧
    (l.update_cache g).1.cached_graph = some g.id ∧
    (l.update_cache g).1.cached_coalesced_graph =
      l.meta_paths.map (fun mp => (mp, metapath_reachable_graph g mp)) := by
  by_cases hcg : l.cached_graph = some g.id
  · simp [HANLayer.update_cache, hcg, hcache hcg]
  · simp [HANLayer.update_cache, hcg]

theorem hanlayer_forward_shape
    (l : HANLayer) (g : HeteroGraph) (h : Tensor) (N in_size D H : Nat)
    (hgat : l.gat_layers = List.replicate l.meta_paths.length (gat_cfg in_size D H))
    (hsem : l.semantic_attention_in_size = D * H)
    (hcache : l.cached_graph = some g.id →
      l.cached_coalesced_graph =
        l.meta_paths.map (fun mp => (mp, metapath_reachable_graph g mp)))
    (hmps : l.meta_paths ≠ [])
    (hsh : h.shape = [N, in_size])
    (hn : ∀ mp ∈ l.meta_paths, (metapath_reachable_graph g mp).num_nodes = N) :
    (l.forward g h).1 =
      .ok { shape := [N, D * H]
            val := .semAttE (.stackE
              ((l.meta_paths.enum.map (expectedEmb g h.val N D H)).map Tensor.val)) } := by
  obtain ⟨hf1, hf2, hf3, _hf4, hf5⟩ := update_cache_fields l g hcache
  have hemb := semantic_embeddings_fresh (l.update_cache g).1 g h N in_size D H
    (by rw [hf2, hf1, hgat]) (by rw [hf5, hf1]) hsh
    (by rw [hf1]; exact hn)
  have hne : (l.update_cache g).1.meta_paths.enum ≠ [] := by
    rw [hf1]
    intro habs
    exact hmps (List.enum_eq_nil.mp habs)
  have hstack := stack_map_expected g h.val N D H (l.update_cache g).1.meta_paths.enum hne
  rw [hf1] at hemb hstack
  simp only [HANLayer.forward, hemb, hstack, SemanticAttention.forward, hf3, hsem, hf1,
    eq_self_iff_true, if_true]

/-! ### Claims -/

/-- Claim C1: `build_model_from_args` enumerates exactly the two-hop metapaths
`[e1, e2]` with `e1.source = category`, `e1.destination = e2.source`,
`e2.destination = e1.source` and `e1.source` distinct from `e1.destination`; on the
schema with edge types A to B and B to A (and no A to A self-loop), `category = "A"`
yields exactly the single metapath `[A to B, B to A]`, and the model built from
those arguments carries exactly that metapath list in its layer. -/
theorem claim_C1_metapath_enumeration :
    (∀ (etypes : List Etype) (A : String) (mp : Metapath),
        mp ∈ HAN.build_metapaths etypes A ↔
          ∃ e1 e2, e1 ∈ etypes ∧ e2 ∈ etypes ∧ mp = [e1, e2] ∧
            e1.1 = A ∧ e1.2.2 = e2.1 ∧ e2.2.2 = e1.1 ∧ e1.1 ≠ e1.2.2) ∧
    HAN.build_metapaths [eAB, eBA] "A" = [[eAB, eBA]] ∧
    (HAN.build_model_from_args argsAB hgAB).map (fun m => m.layers.map HANLayer.meta_paths) =
      some [[[eAB, eBA]]] := by
  refine ⟨?_, by decide, rfl⟩
  intro etypes A mp
  constructor
  · intro hmp
    obtain ⟨e1, he1, hm⟩ := List.mem_flatMap.mp hmp
    by_cases h1 : e1.1 = A
    · rw [if_pos h1] at hm
      obtain ⟨e2, he2, hsome⟩ := List.mem_filterMap.mp hm
      by_cases h2 : e1.1 = e2.2.2 ∧ e1.2.2 = e2.1 ∧ e1.1 ≠ e1.2.2
      · rw [if_pos h2] at hsome
        obtain ⟨h2a, h2b, h2c⟩ := h2
        exact ⟨e1, e2, he1, he2, (Option.some.inj hsome).symm, h1, h2b, h2a.symm, h2c⟩
      · rw [if_neg h2] at hsome
        cases hsome
    · rw [if_neg h1] at hm
      exact absurd hm (List.not_mem_nil mp)
  · rintro ⟨e1, e2, he1, he2, rfl, hA, hd, hc, hne⟩
    apply List.mem_flatMap.mpr
    refine ⟨e1, he1, ?_⟩
    rw [if_pos hA]
    apply List.mem_filterMap.mpr
    exact ⟨e2, he2, by rw [if_pos ⟨hc.symm, hd, hne⟩]⟩

/-- Claim C9: the number of `GATConv` branches equals the number of metapaths
supplied at construction, and a forward pass never modifies the stored metapath
list (nor the branch list). -/
theorem claim_C9_construction_invariant (mps : List Metapath) (in_size D H : Nat)
    (l : HANLayer) (g : HeteroGraph) (h : Tensor) :
    (HANLayer.init mps in_size D H).gat_layers.length = mps.length ∧
    (HANLayer.init mps in_size D H).meta_paths = mps ∧
    (l.forward g h).2.1.meta_paths = l.meta_paths ∧
    (l.forward g h).2.1.gat_layers = l.gat_layers := by
  refine ⟨by simp [HANLayer.init], rfl, ?_, ?_⟩ <;>
    by_cases hcg : l.cached_graph = some g.id <;>
      simp [HANLayer.forward, HANLayer.update_cache, hcg]

/-- Claim C10: `HAN.forward` ignores its optional feature argument `h`: the result
is the same for any two values of it, because the features are re-read from the
graph's target-category node storage. -/
theorem claim_C10_forward_ignores_h (m : HAN) (g : HeteroGraph)
    (h1 h2 : Option Tensor) : m.forward g h1 = m.forward g h2 := rfl

theorem update_cache_cached_graph (l : HANLayer) (g : HeteroGraph) :
    (l.update_cache g).1.cached_graph = some g.id := by
  by_cases hcg : l.cached_graph = some g.id <;>
    simp [HANLayer.update_cache, hcg]

theorem update_cache_meta_paths (l : HANLayer) (g : HeteroGraph) :
    (l.update_cache g).1.meta_paths = l.meta_paths := by
  by_cases hcg : l.cached_graph = some g.id <;>
    simp [HANLayer.update_cache, hcg]

/-- Claim C2: after a forward call on graph `g`, a second forward call with the same
graph object performs no projection calls and leaves the layer state (in particular
the cached subgraph mapping) unchanged, while a forward call with a different graph
object performs exactly one projection call per configured metapath and replaces
the cached mapping wholesale with the projections of the new graph. -/
theorem claim_C2_cache_identity (l : HANLayer) (g g2 : HeteroGraph)
    (h h2 h3 : Tensor) (hne : g2.id ≠ g.id) :
    ((((l.forward g h).2.1).forward g h2).2.1 = (l.forward g h).2.1 ∧
      (((l.forward g h).2.1).forward g h2).2.2 = []) ∧
    ((((l.forward g h).2.1).forward g2 h3).2.2 = l.meta_paths ∧
      (((l.forward g h).2.1).forward g2 h3).2.1.cached_coalesced_graph =
        l.meta_paths.map (fun mp => (mp, metapath_reachable_graph g2 mp)) ∧
      (((l.forward g h).2.1).forward g2 h3).2.1.cached_graph = some g2.id) := by
  have hst : ∀ (l' : HANLayer) (g' : HeteroGraph) (h' : Tensor),
      (l'.forward g' h').2 = l'.update_cache g' := by
    intro l' g' h'
    rfl
  have hid : ((l.forward g h).2.1).cached_graph = some g.id := by
    rw [hst]
    exact update_cache_cached_graph l g
  have hmp : ((l.forward g h).2.1).meta_paths = l.meta_paths := by
    rw [hst]
    exact update_cache_meta_paths l g
  have hid2 : ¬ ((l.forward g h).2.1).cached_graph = some g2.id := by
    rw [hid]
    intro habs
    exact hne (Option.some.inj habs).symm
  rw [hst] at hid hmp hid2
  constructor
  · rw [hst, hst, HANLayer.update_cache, if_pos hid]
    exact ⟨rfl, rfl⟩
  · rw [hst, hst, HANLayer.update_cache, if_neg hid2]
    exact ⟨hmp, by rw [hmp], rfl⟩

/-- Witness for C2 at the two-metapath layer on the concrete graphs `hgAB` and
`hgAB2` (distinct object identities, same content). -/
theorem claim_C2_witness :
    hgAB2.id ≠ hgAB.id ∧
    ((((HANLayer.init [[eAB, eBA]] 4 8 2).forward hgAB tA).2.1).forward hgAB tA).2.2 = [] ∧
    ((((HANLayer.init [[eAB, eBA]] 4 8 2).forward hgAB tA).2.1).forward hgAB2 tA).2.2 =
      [[eAB, eBA]] :=
  ⟨by decide,
    (claim_C2_cache_identity (HANLayer.init [[eAB, eBA]] 4 8 2) hgAB hgAB2 tA tA tA
      (by decide)).1.2,
    (claim_C2_cache_identity (HANLayer.init [[eAB, eBA]] 4 8 2) hgAB hgAB2 tA tA tA
      (by decide)).2.1⟩

/-- Claim C3: in a layer whose branches were built for input width `in_size`,
per-head width `D` and `H` heads, a forward pass over `N` target nodes produces one
per-metapath embedding of shape (N, D*H) per metapath, stacks them into a tensor of
shape (N, M, D*H), and returns an output of shape (N, D*H) independent of M. -/
theorem claim_C3_layer_shape
    (l : HANLayer) (g : HeteroGraph) (h : Tensor) (N in_size D H : Nat)
    (hgat : l.gat_layers = List.replicate l.meta_paths.length (gat_cfg in_size D H))
    (hsem : l.semantic_attention_in_size = D * H)
    (hcache : l.cached_graph = some g.id →
      l.cached_coalesced_graph =
        l.meta_paths.map (fun mp => (mp, metapath_reachable_graph g mp)))
    (hmps : l.meta_paths ≠ [])
    (hsh : h.shape = [N, in_size])
    (hn : ∀ mp ∈ l.meta_paths, (metapath_reachable_graph g mp).num_nodes = N) :
    ∃ es st out,
      (l.update_cache g).1.semantic_embeddings h = .ok es ∧
      es.length = l.meta_paths.length ∧
      (∀ t ∈ es, t.shape = [N, D * H]) ∧
      torch_stack_dim1 es = .ok st ∧
      st.shape = [N, l.meta_paths.length, D * H] ∧
      (l.forward g h).1 = .ok out ∧
      out.shape = [N, D * H] := by
  obtain ⟨hf1, hf2, hf3, _hf4, hf5⟩ := update_cache_fields l g hcache
  have hemb := semantic_embeddings_fresh (l.update_cache g).1 g h N in_size D H
    (by rw [hf2, hf1, hgat]) (by rw [hf5, hf1]) hsh (by rw [hf1]; exact hn)
  rw [hf1] at hemb
  have hne : l.meta_paths.enum ≠ [] := fun habs => hmps (List.enum_eq_nil.mp habs)
  have hstack := stack_map_expected g h.val N D H l.meta_paths.enum hne
  have hfwd := hanlayer_forward_shape l g h N in_size D H hgat hsem hcache hmps hsh hn
  refine ⟨_, _, _, hemb, ?_, ?_, hstack, ?_, hfwd, rfl⟩
  · simp [List.enum_length]
  · intro t ht
    obtain ⟨q, _, rfl⟩ := List.mem_map.mp ht
    rfl
  · simp [List.enum_length]

/-- Witness for C3 on the single-metapath layer over the concrete graph `hgAB`
(2 target nodes, input width 4, per-head width 8, 2 heads). -/
theorem claim_C3_witness :
    ∃ out, ((HANLayer.init [[eAB, eBA]] 4 8 2).forward hgAB tA).1 = .ok out ∧
      out.shape = [2, 8 * 2] := by
  obtain ⟨es, st, out, _, _, _, _, _, hfo, hos⟩ :=
    claim_C3_layer_shape (HANLayer.init [[eAB, eBA]] 4 8 2) hgAB tA 2 4 8 2 rfl rfl
      (by decide) (by decide) rfl (by decide)
  exact ⟨out, hfo, hos⟩

/-- Claim C6: the i-th embedding in the stacked list is produced by `GATConv`
branch i applied to the cached projected subgraph of the i-th metapath in declared
order, and the stack preserves that order. -/
theorem claim_C6_order_preservation
    (l : HANLayer) (g : HeteroGraph) (h : Tensor) (N in_size D H : Nat)
    (hgat : l.gat_layers = List.replicate l.meta_paths.length (gat_cfg in_size D H))
    (hcache : l.cached_graph = some g.id →
      l.cached_coalesced_graph =
        l.meta_paths.map (fun mp => (mp, metapath_reachable_graph g mp)))
    (hsh : h.shape = [N, in_size])
    (hn : ∀ mp ∈ l.meta_paths, (metapath_reachable_graph g mp).num_nodes = N) :
    ∃ es,
      (l.update_cache g).1.semantic_embeddings h = .ok es ∧
      es.length = l.meta_paths.length ∧
      (∀ (i : Nat) (hi : i < l.meta_paths.length) (hei : i < es.length),
        (l.update_cache g).1.cached_coalesced_graph.lookup (l.meta_paths.get ⟨i, hi⟩) =
          some (metapath_reachable_graph g (l.meta_paths.get ⟨i, hi⟩)) ∧
        es.get ⟨i, hei⟩ =
          { shape := [N, D * H]
            val := .flattenE (.gatConvE i
              (metapath_reachable_graph g (l.meta_paths.get ⟨i, hi⟩)) h.val) }) ∧
      ∀ st, torch_stack_dim1 es = .ok st → st.val = .stackE (es.map Tensor.val) := by
  obtain ⟨hf1, hf2, hf3, _hf4, hf5⟩ := update_cache_fields l g hcache
  have hemb := semantic_embeddings_fresh (l.update_cache g).1 g h N in_size D H
    (by rw [hf2, hf1, hgat]) (by rw [hf5, hf1]) hsh (by rw [hf1]; exact hn)
  rw [hf1] at hemb
  refine ⟨_, hemb, by simp [List.enum_length], ?_, ?_⟩
  · intro i hi hei
    constructor
    · rw [hf5]
      exact lookup_map_pair _ _ _ (List.get_mem l.meta_paths i hi)
    · have hei' : i < l.meta_paths.enum.length := by
        simpa [List.enum_length] using hi
      rw [List.get_eq_getElem, List.getElem_map, List.getElem_enum]
      rfl
  · intro st hst
    rcases hh : l.meta_paths.enum with _ | ⟨p, ps⟩
    · rw [hh] at hst
      simp [torch_stack_dim1] at hst
    · rw [hh] at hst
      rw [stack_map_expected g h.val N D H (p :: ps) (by simp)] at hst
      have h2 := Except.ok.inj hst
      rw [← h2]

/-- Witness for C6 on the two-metapath layer over the concrete graph `hgABC`. -/
theorem claim_C6_witness :
    ∃ es, ((HANLayer.init [[eAB, eBA], [eAC, eCA]] 4 8 2).update_cache hgABC).1.semantic_embeddings tA =
        .ok es ∧ es.length = 2 := by
  obtain ⟨es, hes, hlen, _, _⟩ :=
    claim_C6_order_preservation (HANLayer.init [[eAB, eBA], [eAC, eCA]] 4 8 2) hgABC tA
      2 4 8 2 rfl (by decide) rfl (by decide)
  exact ⟨es, hes, hlen⟩

theorem init_gat_layers (mps : List Metapath) (a b c : Nat) :
    (HANLayer.init mps a b c).gat_layers = List.replicate mps.length (gat_cfg a b c) := by
  simp [HANLayer.init, gat_cfg]

/-- Claim C7: every `GATConv` branch a `HANLayer` constructs has
`allow_zero_in_degree` set, and consequently it returns a defined output row for
every node of any projected subgraph it is run on (also nodes with zero in-degree,
i.e. target nodes absent from the metapath projection), rather than failing. -/
theorem claim_C7_zero_in_degree (mps : List Metapath) (in_size D H : Nat)
    (c : GATConv) (idx : Nat) (pg : ProjGraph) (h : Tensor)
    (hc : c ∈ (HANLayer.init mps in_size D H).gat_layers)
    (hsh : h.shape = [pg.num_nodes, in_size]) :
    c.allow_zero_in_degree = true ∧
    c.forward idx pg h =
      .ok { shape := [pg.num_nodes, H, D], val := .gatConvE idx pg h.val } := by
  rw [init_gat_layers] at hc
  have hcfg : c = gat_cfg in_size D H := List.eq_of_mem_replicate hc
  subst hcfg
  exact ⟨rfl, by simp [GATConv.forward, gat_cfg, hsh]⟩

/-- Witness for C7 at the projected graph `pgZ`, whose node 1 has zero in-degree. -/
theorem claim_C7_witness :
    pgZ.has_zero_in_deg = true ∧
    (gat_cfg 4 8 2).allow_zero_in_degree = true ∧
    (gat_cfg 4 8 2).forward 0 pgZ tZ =
      .ok { shape := [pgZ.num_nodes, 2, 8], val := .gatConvE 0 pgZ tZ.val } := by
  obtain ⟨hz, hok⟩ :=
    claim_C7_zero_in_degree [[eAB, eBA]] 4 8 2 (gat_cfg 4 8 2) 0 pgZ tZ
      (by rw [init_gat_layers]; decide) rfl
  exact ⟨by decide, hz, hok⟩

theorem hanlayer_empty_forward (in_size D H : Nat) (g : HeteroGraph) (h : Tensor) :
    ((HANLayer.init [] in_size D H).forward g h).1 =
      .error "stack expects a non-empty TensorList" := rfl

/-- Claim C8: constructing with an empty metapath list succeeds and yields zero
convolution branches; every forward pass (hence already the first one) then fails
when stacking the empty embedding list, and the failure is returned to the caller
unchanged (no internal catch or retry). -/
theorem claim_C8_empty_metapaths (in_size D H : Nat) (g : HeteroGraph) (h : Tensor)
    (cat : String) (i hd o : Nat) (nh : List Nat) (h0t : Tensor)
    (hnh : nh ≠ []) (hfeat : g.node_feat.lookup cat = some h0t) :
    ((HANLayer.init [] in_size D H).gat_layers = [] ∧
      ((HANLayer.init ([] : List Metapath) in_size D H).forward g h).1 =
        .error "stack expects a non-empty TensorList") ∧
    ∃ m, HAN.init [] cat i hd o nh = some m ∧
      (∀ l0 ∈ m.layers, l0.gat_layers = [] ∧ l0.meta_paths = []) ∧
      (m.forward g none).1 = .error "stack expects a non-empty TensorList" := by
  refine ⟨⟨rfl, hanlayer_empty_forward in_size D H g h⟩, ?_⟩
  cases nh with
  | nil => cases hnh rfl
  | cons h0 rest =>
    refine ⟨_, rfl, ?_, ?_⟩
    · intro l0 hl0
      rcases List.mem_cons.mp hl0 with rfl | hl0
      · exact ⟨rfl, rfl⟩
      · obtain ⟨j, _, rfl⟩ := List.mem_map.mp hl0
        exact ⟨rfl, rfl⟩
    · simp only [HAN.forward, hfeat, HAN.run_layers,
        hanlayer_empty_forward i hd h0 g h0t]

/-- Witness for C8 at the concrete graph `hgAB`. -/
theorem claim_C8_witness :
    ([2] : List Nat) ≠ [] ∧
    ((HANLayer.init ([] : List Metapath) 4 8 2).forward hgAB tA).1 =
      .error "stack expects a non-empty TensorList" := by
  refine ⟨by decide, ?_⟩
  obtain ⟨⟨_, hl⟩, _⟩ :=
    claim_C8_empty_metapaths 4 8 2 hgAB tA "A" 4 8 3 [2] tA (by decide) rfl
  exact hl

/-- Claim C5: the constructor builds exactly `num_heads.length` aggregation layers;
layer 0's branches take input width `in_size`, layer `l > 0`'s branches take input
width `hidden_size * num_heads[l-1]`, every layer `l` uses `num_heads[l]` heads, and
the final linear head maps `hidden_size * num_heads[-1]` to `out_size`. -/
theorem claim_C5_model_structure (mps : List Metapath) (cat : String)
    (in_size hd o : Nat) (nh : List Nat) (hnh : nh ≠ []) :
    ∃ m, HAN.init mps cat in_size hd o nh = some m ∧
      m.layers.length = nh.length ∧
      (∀ li : Nat, li < nh.length →
        (m.layers.getD li (HANLayer.init [] 0 0 0)).gat_layers =
          List.replicate mps.length
            (gat_cfg (if li = 0 then in_size else hd * nh.getD (li - 1) 0)
              hd (nh.getD li 0))) ∧
      m.linear_in = hd * nh.getLastD 0 ∧
      m.linear_out = o := by
  cases nh with
  | nil => cases hnh rfl
  | cons h0 rest =>
    refine ⟨_, rfl, by simp, ?_, ?_, rfl⟩
    · intro li hli
      cases li with
      | zero =>
        simpa using init_gat_layers mps in_size hd h0
      | succ j =>
        have hj : j < rest.length := by
          simpa using hli
        have hget : ((List.range rest.length).map (fun i =>
            HANLayer.init mps (hd * (h0 :: rest).getD i 0) hd (rest.getD i 0))).getD j
              (HANLayer.init [] 0 0 0) =
            HANLayer.init mps (hd * (h0 :: rest).getD j 0) hd (rest.getD j 0) := by
          simp [List.getD, List.getElem?_map, List.getElem?_range, hj]
        simp only [List.getD_cons_succ] at *
        rw [hget, init_gat_layers]
        simp
    · rw [List.getLastD_cons]

/-- Witness for C5 at the configuration of spec section 8.6. -/
theorem claim_C5_witness :
    ∃ m, HAN.init [[eAB, eBA]] "A" 4 8 3 [2] = some m ∧
      m.layers.length = 1 ∧ m.linear_in = 8 * 2 ∧ m.linear_out = 3 := by
  obtain ⟨m, hm, hlen, _, hin, hout⟩ :=
    claim_C5_model_structure [[eAB, eBA]] "A" 4 8 3 [2] (by decide)
  exact ⟨m, hm, hlen, hin, hout⟩

theorem run_layers_mapped (g : HeteroGraph) (mps : List Metapath) (hd N : Nat)
    (hmps : mps ≠ [])
    (hn : ∀ mp ∈ mps, (metapath_reachable_graph g mp).num_nodes = N) :
    ∀ (rest : List Nat) (h0 : Nat) (h : Tensor), h.shape = [N, hd * h0] →
      ∃ t, (HAN.run_layers ((List.range rest.length).map (fun i =>
            HANLayer.init mps (hd * (h0 :: rest).getD i 0) hd (rest.getD i 0))) g h).1 =
          .ok t ∧
        t.shape = [N, hd * rest.getLastD h0] := by
  intro rest
  induction rest with
  | nil =>
    intro h0 h hsh
    exact ⟨h, rfl, hsh⟩
  | cons r rest ih =>
    intro h0 h hsh
    have hlist : (List.range (r :: rest).length).map
          (fun i => HANLayer.init mps (hd * (h0 :: r :: rest).getD i 0)
            hd ((r :: rest).getD i 0)) =
        HANLayer.init mps (hd * h0) hd r ::
          (List.range rest.length).map
            (fun i => HANLayer.init mps (hd * (r :: rest).getD i 0) hd (rest.getD i 0)) := by
      rw [List.length_cons, List.range_succ_eq_map, List.map_cons, List.map_map]
      rfl
    obtain ⟨T0, hL, hT0⟩ : ∃ T0,
        ((HANLayer.init mps (hd * h0) hd r).forward g h).1 = .ok T0 ∧
          T0.shape = [N, hd * r] :=
      ⟨_, hanlayer_forward_shape (HANLayer.init mps (hd * h0) hd r) g h N (hd * h0) hd r
        (init_gat_layers mps (hd * h0) hd r) rfl
        (by intro habs; exact absurd habs (by simp [HANLayer.init]))
        hmps hsh hn, rfl⟩
    obtain ⟨t, ht, hts⟩ := ih r T0 hT0
    refine ⟨t, ?_, by rw [hts, List.getLastD_cons]⟩
    rw [hlist]
    simp only [HAN.run_layers, hL, ht]

/-- Claim C4: `HAN.forward` returns a mapping whose single key is the configured
category, bound to a 2-D tensor of shape (num_target_nodes, out_size) obtained by
reading the category's features from the graph, passing them through every layer in
order, and applying the final linear head. -/
theorem claim_C4_model_forward (mps : List Metapath) (cat : String)
    (in_size hd o : Nat) (nh : List Nat) (m : HAN) (g : HeteroGraph)
    (harg : Option Tensor) (h0t : Tensor) (N : Nat)
    (hm : HAN.init mps cat in_size hd o nh = some m)
    (hfeat : g.node_feat.lookup cat = some h0t)
    (hsh : h0t.shape = [N, in_size])
    (hmps : mps ≠ [])
    (hn : ∀ mp ∈ mps, (metapath_reachable_graph g mp).num_nodes = N) :
    ∃ y, (m.forward g harg).1 = .ok [(cat, y)] ∧ y.shape = [N, o] := by
  cases nh with
  | nil => cases hm
  | cons h0 rest =>
    obtain rfl := (Option.some.inj hm).symm
    obtain ⟨T0, hL, hT0⟩ : ∃ T0,
        ((HANLayer.init mps in_size hd h0).forward g h0t).1 = .ok T0 ∧
          T0.shape = [N, hd * h0] :=
      ⟨_, hanlayer_forward_shape (HANLayer.init mps in_size hd h0) g h0t N in_size hd h0
        (init_gat_layers mps in_size hd h0) rfl
        (by intro habs; exact absurd habs (by simp [HANLayer.init]))
        hmps hsh hn, rfl⟩
    obtain ⟨t, ht, hts⟩ := run_layers_mapped g mps hd N hmps hn rest h0 T0 hT0
    refine ⟨{ shape := [N, o], val := .linearE t.val }, ?_, rfl⟩
    simp only [HAN.forward, hfeat, HAN.run_layers, hL, ht, nn_linear_forward, hts]
    simp

/-- Witness for C4: the end-to-end scenario of spec section 8.6 (graph `hgAB`,
category A with 2 nodes, `in_size = 4`, `hidden_size = 8`, `out_size = 3`,
`num_heads = [2]`). -/
theorem claim_C4_witness :
    ∃ m y, HAN.init [[eAB, eBA]] "A" 4 8 3 [2] = some m ∧
      (m.forward hgAB none).1 = .ok [("A", y)] ∧ y.shape = [2, 3] := by
  have hsome : (HAN.init [[eAB, eBA]] "A" 4 8 3 [2]).isSome := rfl
  have hminit : HAN.init [[eAB, eBA]] "A" 4 8 3 [2] =
      some ((HAN.init [[eAB, eBA]] "A" 4 8 3 [2]).get hsome) := (Option.some_get hsome).symm
  obtain ⟨y, hy, hs⟩ :=
    claim_C4_model_forward [[eAB, eBA]] "A" 4 8 3 [2]
      ((HAN.init [[eAB, eBA]] "A" 4 8 3 [2]).get hsome) hgAB none tA 2
      hminit rfl rfl (by decide) (by decide)
  exact ⟨_, y, hminit, hy, hs⟩
